import Mathlib

/-!
Verification of the EmpatheticDialogues episode builder
(`parlai/tasks/empathetic_dialogues/agents.py`).

The development shallowly embeds `EmpatheticDialoguesTeacher._setup_data`,
`EmpatheticDialoguesTeacher._select_dialogues_to_add`, the perspective
resolution performed in `EmpatheticDialoguesTeacher.__init__`, and the
example/episode counters of both teacher classes.  Rows are modelled as
lists of comma-separated fields (the result of `line.strip().split(",")`,
which is also embedded); fallible Python operations (list indexing,
`int(...)`, the turn-continuity `assert`, and the field-count `ValueError`)
are modelled in an `Except` monad.  The optional `deepmoji`/`fastText`
auxiliary features are disabled (their options default to absent in the
source), so the corresponding record fields, which would be `None`, are
omitted from the embedded turn record.
-/

namespace EmpatheticDialogues

/-- Character-list split on a single separator character, mirroring Python
`str.split(sep)` for a one-character separator: empty segments are kept,
and the empty string yields one empty segment. -/
def splitChar (c : Char) : List Char → List (List Char)
  | [] => [[]]
  | x :: xs =>
    if x = c then [] :: splitChar c xs
    else
      match splitChar c xs with
      | [] => [[x]]
      | p :: ps => (x :: p) :: ps

/-- String wrapper for `splitChar`. -/
def splitS (c : Char) (s : String) : List String :=
  (splitChar c s.data).map String.mk

/-- Python `str.strip()`: drop whitespace from both ends. -/
def stripS (s : String) : String :=
  String.mk (((s.data.dropWhile Char.isWhitespace).reverse.dropWhile Char.isWhitespace).reverse)

/-- Fuel-based substring replacement on character lists.  Scans left to
right; on a match of `pat` emits `rep` and skips past the match, exactly as
Python `str.replace` does.  The fuel is always instantiated with the length
of the scanned list, which suffices when `pat` is nonempty. -/
def replaceAuxL (pat rep : List Char) : Nat → List Char → List Char
  | _, [] => []
  | 0, rest => rest
  | fuel + 1, x :: xs =>
    if pat.isPrefixOf (x :: xs) then rep ++ replaceAuxL pat rep fuel (List.drop pat.length (x :: xs))
    else x :: replaceAuxL pat rep fuel xs

/-- Python `s.replace(pat, rep)` for a nonempty pattern (all patterns used
by the source, `_comma_` and `_pipe_`, are nonempty; the empty-pattern case
is never exercised and is modelled as the identity). -/
def replaceS (s pat rep : String) : String :=
  if pat.data = [] then s
  else String.mk (replaceAuxL pat.data rep.data s.data.length s.data)

/-- Python substring membership `pat in s` on character lists. -/
def containsSub (pat : List Char) : List Char → Bool
  | [] => pat.isEmpty
  | x :: xs => pat.isPrefixOf (x :: xs) || containsSub pat xs

/-- Test for the political marker, `'<POLITICAL>' in field` (line 191). -/
def hasPolitical (s : String) : Bool :=
  containsSub "<POLITICAL>".data s.data

/-- Accumulator loop for decimal-digit parsing. -/
def parseDigitsGo (acc : Nat) : List Char → Option Nat
  | [] => some acc
  | c :: cs => if c.isDigit then parseDigitsGo (acc * 10 + (c.toNat - 48)) cs else none

/-- Parse a nonempty all-digit character list as a natural number. -/
def parseDigits : List Char → Option Nat
  | [] => none
  | cs => parseDigitsGo 0 cs

/-- Python `int(s)` on optionally-signed decimal literals (the only shapes
the dataset's turn-index field takes); any other string fails. -/
def toIntPy (s : String) : Option Int :=
  match s.data with
  | '-' :: cs => (parseDigits cs).map (fun n => -(n : Int))
  | '+' :: cs => (parseDigits cs).map (fun n => (n : Int))
  | cs => (parseDigits cs).map (fun n => (n : Int))

/-- Errors that abort `_setup_data`: Python `IndexError` from list
indexing, `ValueError` from `int(...)`, `AssertionError` from the
turn-continuity assert (line 150), and the `ValueError` raised for a wrong
field count (line 169, which records the offending line number). -/
inductive BuildError where
  | indexError : BuildError
  | intError : BuildError
  | assertError : BuildError
  | fieldCountError : Nat → BuildError
deriving Repr, DecidableEq

/-- Python list indexing `xs[i]`, raising `IndexError` when out of range. -/
def getF (xs : List String) (i : Nat) : Except BuildError String :=
  match xs.get? i with
  | some s => Except.ok s
  | none => Except.error BuildError.indexError

/-- Python `int(s)`, raising `ValueError` when unparseable. -/
def toIntE (s : String) : Except BuildError Int :=
  match toIntPy s with
  | some n => Except.ok n
  | none => Except.error BuildError.intError

/-- One `dialogue_parts` entry (lines 193 to 204).  The `deepmoji` and
`fastText` entries are `None` under the default configuration and are
omitted. -/
structure TurnRecord where
  contextt : String
  label : String
  prompt : String
  sit : String
  inline_label_candidates : List String
  is_political : Bool
deriving Repr, DecidableEq

/-- An episode: one perspective's ordered turn records for one
conversation. -/
abbrev Episode := List TurnRecord

/-- Configuration slice used by `_setup_data` and
`_select_dialogues_to_add`: the resolved perspective string and the
`remove_political_convos` flag. -/
structure Config where
  perspective : String
  remove_political_convos : Bool
deriving Repr, DecidableEq

/-- Body of the matching-conversation branch of the `_setup_data` loop
(lines 148 to 211): validates turn continuity, extracts and unescapes the
text fields, parses inline candidates, checks the field count of the
current row, and computes the political flag.  Returns the constructed
turn record together with `int(sparts[1])`, whose parity picks the buffer.
The argument `turn_idx` is the already-incremented counter. -/
def buildTurn (i : Nat) (cparts sparts : List String) (turn_idx : Int) :
    Except BuildError (TurnRecord × Int) := do
  let c1s ← getF cparts 1
  let c1 ← toIntE c1s
  let s1s ← getF sparts 1
  let s1 ← toIntE s1s
  if c1 + 1 == s1 && s1 == turn_idx then do
    let ctxRaw ← getF cparts 5
    let contextt := replaceS ctxRaw "_comma_" ","
    let labRaw ← getF sparts 5
    let label := replaceS labRaw "_comma_" ","
    let prompt ← getF sparts 2
    let sitRaw ← getF sparts 3
    let sit := replaceS sitRaw "_comma_" ","
    let cands ←
      if sparts.length = 9 then do
        let f8 ← getF sparts 8
        pure (if f8 ≠ "" then
          (splitS '|' f8).map (fun cand => replaceS (replaceS cand "_comma_" ",") "_pipe_" "|")
        else [])
      else if sparts.length = 8 then pure ([] : List String)
      else Except.error (BuildError.fieldCountError i)
    let c7 ← getF cparts 7
    let s7 ← getF sparts 7
    let is_pol := hasPolitical c7 || hasPolitical s7
    pure (⟨contextt, label, prompt, sit, cands, is_pol⟩, s1)
  else Except.error BuildError.assertError

/-- Embeds `EmpatheticDialoguesTeacher._select_dialogues_to_add`
(lines 228 to 251). -/
def select_dialogues_to_add (cfg : Config)
    (experiencer_text_dialogue responder_text_dialogue : List TurnRecord) :
    List Episode :=
  if cfg.remove_political_convos &&
      (experiencer_text_dialogue ++ responder_text_dialogue).any (fun t => t.is_political) then
    []
  else
    (if experiencer_text_dialogue.length > 0 && cfg.perspective != "responder" then
      [experiencer_text_dialogue] else []) ++
    (if responder_text_dialogue.length > 0 && cfg.perspective != "experiencer" then
      [responder_text_dialogue] else [])

/-- Main loop of `_setup_data` (lines 141 to 226) over already-split rows.
The state mirrors the Python locals: `prev` is `cparts`' row, `rest` the
remaining rows, `turn_idx` the continuity counter, the two buffers the
per-perspective dialogue lists, and `data` the accumulated episodes.  A
row with no fields at all cannot arise from `split(",")`; indexing it
would raise `IndexError`, modelled accordingly. -/
def setupRowsAux (cfg : Config) (i : Nat) (prev : List String) (rest : List (List String))
    (turn_idx : Int) (expBuf resBuf : List TurnRecord) (data : List Episode) :
    Except BuildError (List Episode) :=
  match rest with
  | [] => Except.ok (data ++ select_dialogues_to_add cfg expBuf resBuf)
  | cur :: rest' =>
    match prev.head?, cur.head? with
    | some c0, some s0 =>
      if c0 = s0 then
        match buildTurn i prev cur (turn_idx + 1) with
        | Except.error e => Except.error e
        | Except.ok (rec_, s1) =>
          if s1 % 2 = 0 then
            setupRowsAux cfg (i + 1) cur rest' (turn_idx + 1) (expBuf ++ [rec_]) resBuf data
          else
            setupRowsAux cfg (i + 1) cur rest' (turn_idx + 1) expBuf (resBuf ++ [rec_]) data
      else
        setupRowsAux cfg (i + 1) cur rest' 1 [] []
          (data ++ select_dialogues_to_add cfg expBuf resBuf)
    | _, _ => Except.error BuildError.indexError

/-- Embeds `_setup_data` on rows already split into fields. -/
def setupRows (cfg : Config) (rows : List (List String)) : Except BuildError (List Episode) :=
  match rows with
  | [] => Except.ok ([] ++ select_dialogues_to_add cfg [] [])
  | first :: rest => setupRowsAux cfg 1 first rest 1 [] [] []

/-- Embeds `_setup_data` on raw file lines, including the per-line
`line.strip().split(",")`. -/
def setup_data (cfg : Config) (df : List String) : Except BuildError (List Episode) :=
  setupRows cfg (df.map (fun line => splitS ',' (stripS line)))

/-- The recognized perspective values (line 23). -/
def PERSPECTIVES : List String := ["experiencer", "responder", "both"]

/-- Embeds `dict(map(lambda s: map(str.strip, s.split(':')), arg.split(',')))`
as the ordered association list of stripped pairs; `none` models the
`ValueError` raised by `dict` when some entry does not split into exactly
two parts. -/
def parseMappingPairs (arg : String) : Option (List (String × String)) :=
  (splitS ',' arg).foldr
    (fun p acc =>
      match splitS ':' p with
      | [k, v] => acc.map (fun l => (stripS k, stripS v) :: l)
      | _ => none)
    (some [])

/-- Python dict lookup on the association list: later bindings override
earlier ones, so look the key up from the right. -/
def dictLookup (pairs : List (String × String)) (k : String) : Option String :=
  pairs.reverse.lookup k

/-- Body of the `try` block of lines 46 to 59: the state of the
`self.perspective` attribute when the block completes or raises (`none`
means it was never assigned), paired with whether an exception was raised
(and then caught by the `except` of lines 60 to 63, which only prints).
The `dict` `ValueError` and the `KeyError` of a missing split name raise
before any assignment; the explicit `raise` on an unrecognized value at
line 59 happens after line 57 has already assigned the invalid value to
the attribute, which therefore stays set to it. -/
def perspectiveTry (arg base_datatype : String) : Option String × Bool :=
  if PERSPECTIVES.contains arg then (some arg, false)
  else
    match parseMappingPairs arg with
    | none => (none, true)
    | some pairs =>
      match dictLookup pairs base_datatype with
      | none => (none, true)
      | some p =>
        if PERSPECTIVES.contains p then (some p, false) else (some p, true)

/-- State of `self.perspective` after lines 39 to 63 of `__init__`: the
`train_experiencer_only` override, else the try/except outcome (the caught
exception does not change the attribute). -/
def initPerspective (train_experiencer_only : Bool) (base_datatype arg : String) :
    Option String :=
  if train_experiencer_only && base_datatype == "train" then some "experiencer"
  else (perspectiveTry arg base_datatype).1

/-- Error aborting `__init__`: the Python `AttributeError` raised when the
log statement of lines 64 to 67 reads an unset `self.perspective`. -/
inductive InitError where
  | attributeError : InitError
deriving Repr, DecidableEq

/-- Perspective handling of `__init__` through line 67: after the
resolution of lines 39 to 63, a non-shared teacher's log statement at
line 66 reads `self.perspective`, a fatal `AttributeError` when the
attribute was never assigned; a shared teacher skips the read.  Returns
the surviving attribute state. -/
def initTeacherPerspective (train_experiencer_only shared : Bool)
    (base_datatype arg : String) : Except InitError (Option String) :=
  let persp := initPerspective train_experiencer_only base_datatype arg
  if !shared then
    match persp with
    | none => Except.error InitError.attributeError
    | some p => Except.ok (some p)
  else Except.ok persp

/-- State built by `__init__` after `_setup_data` (lines 72 to 79):
the episode list plus the cached counters
`num_exs = sum(len(d) for d in data)` and `num_eps = len(data)`. -/
structure TeacherState where
  data : List Episode
  num_exs : Nat
  num_eps : Nat
deriving Repr, DecidableEq

/-- Construction of an `EmpatheticDialoguesTeacher` (non-shared) from a
resolved configuration and the split rows. -/
def mkTeacher (cfg : Config) (rows : List (List String)) : Except BuildError TeacherState :=
  match setupRows cfg rows with
  | Except.error e => Except.error e
  | Except.ok data => Except.ok ⟨data, (data.map List.length).sum, data.length⟩

/-- Accessor `EmpatheticDialoguesTeacher.num_examples` (line 118). -/
def teacher_num_examples (t : TeacherState) : Nat := t.num_exs

/-- Accessor `EmpatheticDialoguesTeacher.num_episodes` (line 115). -/
def teacher_num_episodes (t : TeacherState) : Nat := t.num_eps

/-- Construction of an `ExperiencerEmpatheticDialoguesTeacher`: its
`__init__` overwrites `opt['perspective']` with `'responder'` before
delegating to the parent constructor (line 286). -/
def mkExperiencerVariant (cfg : Config) (rows : List (List String)) :
    Except BuildError TeacherState :=
  mkTeacher { cfg with perspective := "responder" } rows

/-- Override `ExperiencerEmpatheticDialoguesTeacher.num_examples`
(lines 309 to 310): it returns `len(self.data)`. -/
def variant_num_examples (t : TeacherState) : Nat := t.data.length

/-- Override `ExperiencerEmpatheticDialoguesTeacher.num_episodes`
(lines 306 to 307). -/
def variant_num_episodes (t : TeacherState) : Nat := t.data.length

/-- Join a list of segments with a separator, the inverse view of
splitting on a substring. -/
def joinWith (sep : List Char) : List (List Char) → List Char
  | [] => []
  | [p] => p
  | p :: ps => p ++ sep ++ joinWith sep ps

/-- Fuel-based split on a substring pattern, the decomposition underlying
`replaceAuxL`: the input equals the segments joined with the pattern, and
the replacement result equals the segments joined with the replacement. -/
def splitSubAux (pat : List Char) : Nat → List Char → List (List Char)
  | _, [] => [[]]
  | 0, rest => [rest]
  | fuel + 1, x :: xs =>
    if pat.isPrefixOf (x :: xs) then [] :: splitSubAux pat fuel (List.drop pat.length (x :: xs))
    else
      match splitSubAux pat fuel xs with
      | [] => [[x]]
      | p :: ps => (x :: p) :: ps

/-- Modelled from the spec: restore both escape tokens, turning `_comma_`
into a literal comma and `_pipe_` into a literal pipe.  This is the
transformation the specification asserts for every exposed text field; it
is compared against what the code actually does. -/
def specRestoreBoth (s : String) : String :=
  replaceS (replaceS s "_comma_" ",") "_pipe_" "|"

/-- The total number of turn records over all built episodes of a
successful build (`sum(len(episode) for episode in episodes)`). -/
def totalExamples (x : Except BuildError (List Episode)) : Option Nat :=
  match x with
  | Except.ok eps => some ((eps.map List.length).sum)
  | Except.error _ => none

/-- Context text of the first turn record of the first built episode. -/
def firstContext (x : Except BuildError (List Episode)) : Option String :=
  match x with
  | Except.ok ((r :: _) :: _) => some r.contextt
  | _ => none

/-- Well-formedness of the tail of a conversation whose previous row has
conversation id `cid` and turn index `t`: every row carries `cid` in field
0, consecutive turn indices starting at `t + 1` in field 1, and 8 or 9
fields. -/
def convChainB (cid : String) : Int → List (List String) → Bool
  | _, [] => true
  | t, row :: rs =>
    (row.getD 0 "" == cid) && (toIntPy (row.getD 1 "") == some (t + 1)) &&
      (row.length == 8 || row.length == 9) && convChainB cid (t + 1) rs

/-- Configuration with perspective `both` and political filtering off. -/
def cfgBoth : Config := ⟨"both", false⟩

/-- The two rows of the concrete scenario of the specification, as field
tuples, in the field order the specification gives. -/
def exampleRowsTwo : List (List String) :=
  [["c1", "1", "joy", "sit", "hi", "u1", "", ""],
   ["c1", "2", "joy", "sit", "hello back", "u2", "", ""]]

/-- A well-formed three-row conversation. -/
def exampleRowsThree : List (List String) :=
  [["c1", "1", "joy", "sit", "s", "hi", "e", ""],
   ["c1", "2", "joy", "sit", "s", "yo", "e", ""],
   ["c1", "3", "joy", "sit", "s", "ok", "e", ""]]

/-- A well-formed five-row conversation; its responder-perspective buffer
collects two turn records (turn indices 3 and 5). -/
def exampleRowsFive : List (List String) :=
  [["c1", "1", "joy", "sit", "s", "a", "e", ""],
   ["c1", "2", "joy", "sit", "s", "b", "e", ""],
   ["c1", "3", "joy", "sit", "s", "c", "e", ""],
   ["c1", "4", "joy", "sit", "s", "d", "e", ""],
   ["c1", "5", "joy", "sit", "s", "f", "e", ""]]

/-- The teacher state built from `exampleRowsFive` under perspective
`both`: two episodes of two turn records each. -/
def exampleTeacherFive : TeacherState :=
  ⟨[[⟨"a", "b", "joy", "sit", [], false⟩, ⟨"c", "d", "joy", "sit", [], false⟩],
    [⟨"b", "c", "joy", "sit", [], false⟩, ⟨"d", "f", "joy", "sit", [], false⟩]], 4, 2⟩

/-- A file whose second row has only 3 fields but starts a new
conversation, so it is never the current row of a matching adjacent
pair. -/
def exampleRowsShortField : List (List String) :=
  [["c1", "1", "joy", "sit", "s", "hi", "e", ""],
   ["c2", "oops", "x"]]

/-- A two-row conversation whose first utterance contains the literal
escape token `_pipe_`. -/
def exampleRowsPipe : List (List String) :=
  [["c1", "1", "joy", "sit", "s", "a_pipe_b", "e", ""],
   ["c1", "2", "joy", "sit", "s", "c", "e", ""]]

/-! Helper lemmas. -/

theorem exBind_ok {α β : Type} (a : α) (f : α → Except BuildError β) :
    (Except.ok a >>= f) = f a := rfl

theorem exBind_err {α β : Type} (e : BuildError) (f : α → Except BuildError β) :
    ((Except.error e : Except BuildError α) >>= f) = Except.error e := rfl

theorem exPure {α : Type} (a : α) : (pure a : Except BuildError α) = Except.ok a := rfl

theorem getF_ok (xs : List String) (i : Nat) (h : i < xs.length) :
    getF xs i = Except.ok (xs.getD i "") := by
  unfold getF
  rw [List.get?_eq_getElem?, List.getElem?_eq_getElem h]
  simp [List.getD_eq_getElem?_getD, List.getElem?_eq_getElem h]

theorem toIntE_ok {s : String} {a : Int} (h : toIntPy s = some a) :
    toIntE s = Except.ok a := by
  unfold toIntE
  rw [h]

theorem toIntPy_getD_lt {xs : List String} {i : Nat} {a : Int}
    (h : toIntPy (xs.getD i "") = some a) : i < xs.length := by
  by_contra hc
  push_neg at hc
  have hd : xs.getD i "" = "" := by
    simp [List.getD_eq_getElem?_getD, List.getElem?_eq_none hc]
  rw [hd] at h
  have h2 : (none : Option Int) = some a := h
  exact Option.noConfusion h2

theorem head?_of_pos {xs : List String} (h : 0 < xs.length) :
    xs.head? = some (xs.getD 0 "") := by
  cases xs with
  | nil => simp at h
  | cons x xs => rfl

theorem containsSub_iff (pat l : List Char) : containsSub pat l = true ↔ pat <:+: l := by
  induction l with
  | nil => simp [containsSub, List.isEmpty_iff]
  | cons x xs ih =>
    simp [containsSub, List.infix_cons_iff, ih, List.isPrefixOf_iff_prefix]

theorem exBind_ok_elim {α β : Type} {x : Except BuildError α} {f : α → Except BuildError β}
    {b : β} (h : (x >>= f) = Except.ok b) : ∃ a, x = Except.ok a ∧ f a = Except.ok b := by
  cases x with
  | error e => rw [exBind_err] at h; exact Except.noConfusion h
  | ok a => exact ⟨a, rfl, by rwa [exBind_ok] at h⟩

theorem toIntE_ok_elim {s : String} {a : Int} (h : toIntE s = Except.ok a) :
    toIntPy s = some a := by
  unfold toIntE at h
  cases hp : toIntPy s with
  | none => rw [hp] at h; exact Except.noConfusion h
  | some b => rw [hp] at h; cases h; rfl

theorem getF_ok_elim {xs : List String} {i : Nat} {s : String}
    (h : getF xs i = Except.ok s) : xs.get? i = some s := by
  unfold getF at h
  cases hg : xs.get? i with
  | none => rw [hg] at h; exact Except.noConfusion h
  | some v => rw [hg] at h; cases h; rfl

/-- Forward evaluation of `buildTurn` on a well-formed adjacent pair:
parseable consecutive turn indices and 8 or 9 fields in the current row
produce a turn record whose components come from the designated columns. -/
theorem buildTurn_eval (i : Nat) (cparts sparts : List String) (a : Int)
    (hc1 : toIntPy (cparts.getD 1 "") = some a)
    (hs1 : toIntPy (sparts.getD 1 "") = some (a + 1))
    (hclen : 8 ≤ cparts.length)
    (hslen : sparts.length = 8 ∨ sparts.length = 9) :
    ∃ cands, buildTurn i cparts sparts (a + 1) =
      Except.ok (⟨replaceS (cparts.getD 5 "") "_comma_" ",",
                  replaceS (sparts.getD 5 "") "_comma_" ",",
                  sparts.getD 2 "",
                  replaceS (sparts.getD 3 "") "_comma_" ",",
                  cands,
                  hasPolitical (cparts.getD 7 "") || hasPolitical (sparts.getD 7 "")⟩,
                 a + 1) := by
  have hsl8 : 8 ≤ sparts.length := by rcases hslen with h | h <;> omega
  have g1 : getF cparts 1 = Except.ok (cparts.getD 1 "") := getF_ok _ _ (by omega)
  have g5 : getF cparts 5 = Except.ok (cparts.getD 5 "") := getF_ok _ _ (by omega)
  have g7 : getF cparts 7 = Except.ok (cparts.getD 7 "") := getF_ok _ _ (by omega)
  have k1 : getF sparts 1 = Except.ok (sparts.getD 1 "") := getF_ok _ _ (by omega)
  have k2 : getF sparts 2 = Except.ok (sparts.getD 2 "") := getF_ok _ _ (by omega)
  have k3 : getF sparts 3 = Except.ok (sparts.getD 3 "") := getF_ok _ _ (by omega)
  have k5 : getF sparts 5 = Except.ok (sparts.getD 5 "") := getF_ok _ _ (by omega)
  have k7 : getF sparts 7 = Except.ok (sparts.getD 7 "") := getF_ok _ _ (by omega)
  rcases hslen with hl8 | hl9
  · refine ⟨[], ?_⟩
    unfold buildTurn
    simp only [g1, k1, toIntE_ok hc1, toIntE_ok hs1, exBind_ok, beq_self_eq_true,
      Bool.and_self, if_true, g5, k5, k2, k3, hl8, g7, k7, exPure]
    norm_num
  · have k8 : getF sparts 8 = Except.ok (sparts.getD 8 "") := getF_ok _ _ (by omega)
    refine ⟨if (sparts.getD 8 "") ≠ "" then
      (splitS '|' (sparts.getD 8 "")).map
        (fun cand => replaceS (replaceS cand "_comma_" ",") "_pipe_" "|") else [], ?_⟩
    unfold buildTurn
    simp only [g1, k1, toIntE_ok hc1, toIntE_ok hs1, exBind_ok, beq_self_eq_true,
      Bool.and_self, if_true, g5, k5, k2, k3, hl9, g7, k7, k8, exPure]

/-- Inversion of a successful `buildTurn`: recovers every raw field access,
the parsed turn indices, the continuity facts, and the exact shape of the
constructed record. -/
theorem buildTurn_ok_elim {i : Nat} {cparts sparts : List String} {t : Int}
    {r : TurnRecord} {s1 : Int}
    (h : buildTurn i cparts sparts t = Except.ok (r, s1)) :
    ∃ c1s c1 s1s ctxRaw labRaw prompt sitRaw cands c7 s7,
      getF cparts 1 = Except.ok c1s ∧ toIntPy c1s = some c1 ∧
      getF sparts 1 = Except.ok s1s ∧ toIntPy s1s = some s1 ∧
      c1 + 1 = s1 ∧ s1 = t ∧
      getF cparts 5 = Except.ok ctxRaw ∧ getF sparts 5 = Except.ok labRaw ∧
      getF sparts 2 = Except.ok prompt ∧ getF sparts 3 = Except.ok sitRaw ∧
      ((sparts.length = 9 ∧ ∃ f8, getF sparts 8 = Except.ok f8 ∧
          cands = (if f8 ≠ "" then (splitS '|' f8).map
            (fun cand => replaceS (replaceS cand "_comma_" ",") "_pipe_" "|") else [])) ∨
        (sparts.length = 8 ∧ cands = [])) ∧
      getF cparts 7 = Except.ok c7 ∧ getF sparts 7 = Except.ok s7 ∧
      r = ⟨replaceS ctxRaw "_comma_" ",", replaceS labRaw "_comma_" ",", prompt,
           replaceS sitRaw "_comma_" ",", cands, hasPolitical c7 || hasPolitical s7⟩ := by
  unfold buildTurn at h
  obtain ⟨c1s, hg1, h⟩ := exBind_ok_elim h
  obtain ⟨c1, hi1, h⟩ := exBind_ok_elim h
  obtain ⟨s1s, hg2, h⟩ := exBind_ok_elim h
  obtain ⟨s1v, hi2, h⟩ := exBind_ok_elim h
  cases hcond : (c1 + 1 == s1v && s1v == t) with
  | false => rw [hcond] at h; simp at h
  | true =>
    rw [hcond] at h
    simp only [if_true] at h
    obtain ⟨ctxRaw, hc5, h⟩ := exBind_ok_elim h
    obtain ⟨labRaw, hs5, h⟩ := exBind_ok_elim h
    obtain ⟨prompt, hs2, h⟩ := exBind_ok_elim h
    obtain ⟨sitRaw, hs3, h⟩ := exBind_ok_elim h
    have hcond' := hcond
    rw [Bool.and_eq_true, beq_iff_eq, beq_iff_eq] at hcond'
    by_cases h9 : sparts.length = 9
    · rw [if_pos h9] at h
      obtain ⟨f8, hf8, h⟩ := exBind_ok_elim h
      obtain ⟨cands, hcands, h⟩ := exBind_ok_elim h
      rw [exPure] at hcands
      obtain ⟨c7, hc7, h⟩ := exBind_ok_elim h
      obtain ⟨s7, hs7, h⟩ := exBind_ok_elim h
      rw [exPure] at h
      have hpair := Except.ok.inj h
      have hr := congrArg Prod.fst hpair
      have hs1v := congrArg Prod.snd hpair
      simp only at hr hs1v
      refine ⟨c1s, c1, s1s, ctxRaw, labRaw, prompt, sitRaw, cands, c7, s7,
        hg1, toIntE_ok_elim hi1, hg2, hs1v ▸ toIntE_ok_elim hi2,
        hs1v ▸ hcond'.1, hs1v ▸ hcond'.2, hc5, hs5, hs2, hs3,
        Or.inl ⟨h9, f8, hf8, (Except.ok.inj hcands).symm⟩, hc7, hs7, hr.symm⟩
    · rw [if_neg h9] at h
      by_cases h8 : sparts.length = 8
      · rw [if_pos h8] at h
        obtain ⟨cands, hcands, h⟩ := exBind_ok_elim h
        rw [exPure] at hcands
        obtain ⟨c7, hc7, h⟩ := exBind_ok_elim h
        obtain ⟨s7, hs7, h⟩ := exBind_ok_elim h
        rw [exPure] at h
        have hpair := Except.ok.inj h
        have hr := congrArg Prod.fst hpair
        have hs1v := congrArg Prod.snd hpair
        simp only at hr hs1v
        refine ⟨c1s, c1, s1s, ctxRaw, labRaw, prompt, sitRaw, cands, c7, s7,
          hg1, toIntE_ok_elim hi1, hg2, hs1v ▸ toIntE_ok_elim hi2,
          hs1v ▸ hcond'.1, hs1v ▸ hcond'.2, hc5, hs5, hs2, hs3,
          Or.inr ⟨h8, (Except.ok.inj hcands).symm⟩, hc7, hs7, hr.symm⟩
      · rw [if_neg h8, exBind_err] at h
        exact Except.noConfusion h

/-- C4: for an adjacent pair of rows sharing a conversation id whose
parsed turn indices violate continuity (current index differs from the
previous index plus one), the loop fails with the fatal continuity error
(the Python assert, the FormatError of the specification's taxonomy),
whatever the loop state, so the whole load aborts. -/
theorem C4_gap_aborts (cfg : Config) (i : Nat) (prev cur : List String)
    (rest' : List (List String)) (t : Int) (expBuf resBuf : List TurnRecord)
    (data : List Episode) (c0 : String) (a b : Int)
    (h0 : prev.head? = some c0) (h0' : cur.head? = some c0)
    (ha : toIntPy (prev.getD 1 "") = some a) (hb : toIntPy (cur.getD 1 "") = some b)
    (hgap : b ≠ a + 1) :
    setupRowsAux cfg i prev (cur :: rest') t expBuf resBuf data =
      Except.error BuildError.assertError := by
  have hpl : 1 < prev.length := toIntPy_getD_lt ha
  have hcl : 1 < cur.length := toIntPy_getD_lt hb
  have g1 : getF prev 1 = Except.ok (prev.getD 1 "") := getF_ok _ _ hpl
  have k1 : getF cur 1 = Except.ok (cur.getD 1 "") := getF_ok _ _ hcl
  have hbt : buildTurn i prev cur (t + 1) = Except.error BuildError.assertError := by
    unfold buildTurn
    simp only [g1, k1, toIntE_ok ha, toIntE_ok hb, exBind_ok]
    have hcf : (a + 1 == b) = false := by
      rw [beq_eq_false_iff_ne]
      omega
    rw [hcf, Bool.false_and]
    simp
  cases prev with
  | nil => simp at h0
  | cons p ps =>
    cases cur with
    | nil => simp at h0'
    | cons q qs =>
      simp only [List.head?_cons, Option.some.injEq] at h0 h0'
      subst h0
      subst h0'
      unfold setupRowsAux
      simp only [List.head?_cons]
      rw [if_pos trivial, hbt]

theorem C4_witness :
    setupRowsAux cfgBoth 1 ["c1", "2", "joy", "sit", "s", "a", "e", ""]
      [["c1", "4", "joy", "sit", "s", "b", "e", ""]] 2 [] [] [] =
      Except.error BuildError.assertError :=
  C4_gap_aborts cfgBoth 1 ["c1", "2", "joy", "sit", "s", "a", "e", ""]
    ["c1", "4", "joy", "sit", "s", "b", "e", ""] [] 2 [] [] [] "c1" 2 4
    rfl rfl rfl rfl (by decide)

/-- C10: a turn record's political flag is set exactly when the marker
string occurs as a substring of field index 7 of either of the two
adjacent rows forming the turn. -/
theorem C10_political_marker (i : Nat) (cparts sparts : List String) (t : Int)
    (r : TurnRecord) (s1 : Int)
    (h : buildTurn i cparts sparts t = Except.ok (r, s1)) :
    ∃ c7 s7, getF cparts 7 = Except.ok c7 ∧ getF sparts 7 = Except.ok s7 ∧
      (r.is_political = true ↔
        ("<POLITICAL>".data <:+: c7.data ∨ "<POLITICAL>".data <:+: s7.data)) := by
  obtain ⟨c1s, c1, s1s, ctxRaw, labRaw, prompt, sitRaw, cands, c7, s7,
    _, _, _, _, _, _, _, _, _, _, _, hc7, hs7, hr⟩ := buildTurn_ok_elim h
  refine ⟨c7, s7, hc7, hs7, ?_⟩
  rw [hr]
  show (hasPolitical c7 || hasPolitical s7) = true ↔ _
  rw [Bool.or_eq_true]
  unfold hasPolitical
  rw [containsSub_iff, containsSub_iff]

theorem C10_witness :
    ∃ c7 s7,
      getF ["c1", "1", "joy", "sit", "s", "a", "e", "<POLITICAL>"] 7 = Except.ok c7 ∧
      getF ["c1", "2", "joy", "sit", "s", "b", "e", ""] 7 = Except.ok s7 ∧
      ((⟨"a", "b", "joy", "sit", [], true⟩ : TurnRecord).is_political = true ↔
        ("<POLITICAL>".data <:+: c7.data ∨ "<POLITICAL>".data <:+: s7.data)) :=
  C10_political_marker 1 ["c1", "1", "joy", "sit", "s", "a", "e", "<POLITICAL>"]
    ["c1", "2", "joy", "sit", "s", "b", "e", ""] 2 ⟨"a", "b", "joy", "sit", [], true⟩ 2 rfl

/-! Claims about the selection policy. -/

/-- C3: when `remove_political_convos` is active and at least one turn
record of the conversation carries the political flag, the selection step
returns zero episodes, dropping both perspective buffers, for every
perspective policy. -/
theorem C3_political_drop (cfg : Config) (expBuf resBuf : List TurnRecord)
    (hrp : cfg.remove_political_convos = true)
    (hpol : ∃ tr ∈ expBuf ++ resBuf, tr.is_political = true) :
    select_dialogues_to_add cfg expBuf resBuf = [] := by
  unfold select_dialogues_to_add
  have hany : (expBuf ++ resBuf).any (fun t => t.is_political) = true := by
    rw [List.any_eq_true]
    obtain ⟨tr, htr, hflag⟩ := hpol
    exact ⟨tr, htr, hflag⟩
  rw [hrp, hany]
  simp

theorem C3_witness :
    (⟨"both", true⟩ : Config).remove_political_convos = true ∧
    select_dialogues_to_add ⟨"both", true⟩ [⟨"a", "b", "joy", "sit", [], true⟩] [] = [] := by
  refine ⟨rfl, C3_political_drop _ _ _ rfl ⟨⟨"a", "b", "joy", "sit", [], true⟩, by simp, rfl⟩⟩

/-- C6: for a conversation the political filter keeps, the experiencer
buffer is included exactly when it is non-empty and the perspective is not
`responder`, and the responder buffer exactly when it is non-empty and the
perspective is not `experiencer`; in particular perspective `experiencer`
yields no responder-perspective episode and `both` yields every non-empty
buffer. -/
theorem C6_selection_policy (cfg : Config) (expBuf resBuf : List TurnRecord)
    (hkeep : cfg.remove_political_convos = false ∨
      ∀ tr ∈ expBuf ++ resBuf, tr.is_political = false) :
    select_dialogues_to_add cfg expBuf resBuf =
      ((if expBuf ≠ [] ∧ cfg.perspective ≠ "responder" then [expBuf] else []) ++
       (if resBuf ≠ [] ∧ cfg.perspective ≠ "experiencer" then [resBuf] else [])) ∧
    (cfg.perspective = "experiencer" →
      select_dialogues_to_add cfg expBuf resBuf = if expBuf ≠ [] then [expBuf] else []) ∧
    (cfg.perspective = "both" →
      select_dialogues_to_add cfg expBuf resBuf =
        (if expBuf ≠ [] then [expBuf] else []) ++ (if resBuf ≠ [] then [resBuf] else [])) := by
  have hcond : (cfg.remove_political_convos &&
      (expBuf ++ resBuf).any (fun t => t.is_political)) = false := by
    rcases hkeep with h | h
    · rw [h]; rfl
    · have : (expBuf ++ resBuf).any (fun t => t.is_political) = false := by
        rw [List.any_eq_false]
        intro tr htr
        simp [h tr htr]
      rw [this, Bool.and_false]
  have hmain : select_dialogues_to_add cfg expBuf resBuf =
      ((if expBuf ≠ [] ∧ cfg.perspective ≠ "responder" then [expBuf] else []) ++
       (if resBuf ≠ [] ∧ cfg.perspective ≠ "experiencer" then [resBuf] else [])) := by
    unfold select_dialogues_to_add
    rw [hcond]
    simp only [Bool.false_eq_true, if_false]
    congr 1
    · by_cases h1 : expBuf = [] <;> by_cases h2 : cfg.perspective = "responder" <;>
        simp [h1, h2, List.length_pos]
    · by_cases h1 : resBuf = [] <;> by_cases h2 : cfg.perspective = "experiencer" <;>
        simp [h1, h2, List.length_pos]
  refine ⟨hmain, ?_, ?_⟩
  · intro hp
    rw [hmain, hp]
    by_cases h1 : expBuf = [] <;> by_cases h2 : resBuf = [] <;> simp [h1, h2]
  · intro hp
    rw [hmain, hp]
    by_cases h1 : expBuf = [] <;> by_cases h2 : resBuf = [] <;> simp [h1, h2]

theorem C6_witness :
    select_dialogues_to_add ⟨"experiencer", false⟩ [] [⟨"a", "b", "joy", "sit", [], false⟩] =
      (if ([] : List TurnRecord) ≠ [] then [([] : List TurnRecord)] else []) :=
  (C6_selection_policy ⟨"experiencer", false⟩ []
    [⟨"a", "b", "joy", "sit", [], false⟩] (Or.inl rfl)).2.1 rfl

/-! Claim about perspective resolution. -/

/-- C7 counterexample: the claim fails both ways on concrete inputs.  For
the unparseable string `garbage` the perspective is indeed left unset, but
a non-shared teacher's construction then aborts with an `AttributeError`
when the log statement reads the unset attribute.  For the parseable
mapping `train:bogus`, whose value is unrecognized, the perspective is not
left unset: line 57 assigned the invalid value before line 59 raised, so
the attribute stays set to `bogus`. -/
theorem C7_counterexample :
    initTeacherPerspective false false "train" "garbage" =
      Except.error InitError.attributeError ∧
    initPerspective false "train" "train:bogus" = some "bogus" ∧
    ("bogus" : String) ∉ PERSPECTIVES :=
  ⟨rfl, rfl, by decide⟩

/-- C7 amended: for every perspective string that does not resolve to a
recognized value for the current split, the try block raises and the
exception is caught and logged, never propagated.  What follows depends on
how the parse failed: when the string is a parseable mapping assigning the
split an unrecognized value, the perspective remains set to that invalid
value (assigned at line 57 before the raise) and construction proceeds,
shared or not; otherwise the perspective is left unset, a shared teacher
proceeds with it undefined, and a non-shared teacher aborts with an
`AttributeError` when the log statement of line 66 reads the unset
attribute. -/
theorem C7_amended (teo : Bool) (base arg : String)
    (hteo : ¬(teo = true ∧ base = "train"))
    (hrec : PERSPECTIVES.contains arg = false)
    (hmap : ∀ pairs, parseMappingPairs arg = some pairs →
      ∀ p, dictLookup pairs base = some p → PERSPECTIVES.contains p = false) :
    (perspectiveTry arg base).2 = true ∧
    ((∃ pairs p, parseMappingPairs arg = some pairs ∧
        dictLookup pairs base = some p ∧ PERSPECTIVES.contains p = false ∧
        initPerspective teo base arg = some p ∧
        (∀ sh : Bool, initTeacherPerspective teo sh base arg = Except.ok (some p))) ∨
      (initPerspective teo base arg = none ∧
        initTeacherPerspective teo true base arg = Except.ok none ∧
        initTeacherPerspective teo false base arg =
          Except.error InitError.attributeError)) := by
  have hguard : (teo && base == "train") = false := by
    cases teo with
    | false => rfl
    | true =>
      cases hb : base == "train" with
      | false => rfl
      | true => exact absurd ⟨rfl, by exact eq_of_beq hb⟩ hteo
  have hip : initPerspective teo base arg = (perspectiveTry arg base).1 := by
    unfold initPerspective
    rw [hguard]
    rfl
  have hit : ∀ sh : Bool, initTeacherPerspective teo sh base arg =
      (if !sh then
        match (perspectiveTry arg base).1 with
        | none => Except.error InitError.attributeError
        | some p => Except.ok (some p)
      else Except.ok (perspectiveTry arg base).1) := by
    intro sh
    unfold initTeacherPerspective
    rw [hip]
  cases hpm : parseMappingPairs arg with
  | none =>
    have htry : perspectiveTry arg base = (none, true) := by
      unfold perspectiveTry
      rw [hrec]
      simp [hpm]
    refine ⟨by rw [htry], Or.inr ⟨by rw [hip, htry], ?_, ?_⟩⟩
    · rw [hit true, htry]
      rfl
    · rw [hit false, htry]
      rfl
  | some pairs =>
    cases hlk : dictLookup pairs base with
    | none =>
      have htry : perspectiveTry arg base = (none, true) := by
        unfold perspectiveTry
        rw [hrec]
        simp [hpm, hlk]
      refine ⟨by rw [htry], Or.inr ⟨by rw [hip, htry], ?_, ?_⟩⟩
      · rw [hit true, htry]
        rfl
      · rw [hit false, htry]
        rfl
    | some p =>
      have hnp : p ∉ PERSPECTIVES := by simpa using hmap pairs hpm p hlk
      have htry : perspectiveTry arg base = (some p, true) := by
        unfold perspectiveTry
        rw [hrec]
        simp [hpm, hlk, hnp]
      refine ⟨by rw [htry],
        Or.inl ⟨pairs, p, ?_, ?_, hmap pairs hpm p hlk, by rw [hip, htry], ?_⟩⟩
      · exact hpm ▸ rfl
      · exact hlk ▸ rfl
      intro sh
      rw [hit sh, htry]
      cases sh <;> rfl

theorem C7_witness :
    (perspectiveTry "train:bogus" "train").2 = true ∧
    ((∃ pairs p, parseMappingPairs "train:bogus" = some pairs ∧
        dictLookup pairs "train" = some p ∧ PERSPECTIVES.contains p = false ∧
        initPerspective false "train" "train:bogus" = some p ∧
        (∀ sh : Bool,
          initTeacherPerspective false sh "train" "train:bogus" = Except.ok (some p))) ∨
      (initPerspective false "train" "train:bogus" = none ∧
        initTeacherPerspective false true "train" "train:bogus" = Except.ok none ∧
        initTeacherPerspective false false "train" "train:bogus" =
          Except.error InitError.attributeError)) := by
  refine C7_amended false "train" "train:bogus" (by simp) (by decide) ?_
  intro pairs h
  have hpairs : pairs = [("train", "bogus")] := by
    rw [show parseMappingPairs "train:bogus" = some [("train", "bogus")] from rfl] at h
    exact (Option.some.inj h).symm
  subst hpairs
  intro p hp
  have hpv : p = "bogus" := by
    rw [show dictLookup [("train", "bogus")] "train" = some "bogus" from rfl] at hp
    exact (Option.some.inj hp).symm
  subst hpv
  decide

theorem getF_error_elim {xs : List String} {i : Nat} {er : BuildError}
    (h : getF xs i = Except.error er) : er = BuildError.indexError := by
  unfold getF at h
  cases hg : xs.get? i with
  | none => rw [hg] at h; exact (Except.error.inj h).symm
  | some v => rw [hg] at h; exact Except.noConfusion h

theorem toIntE_error_elim {s : String} {er : BuildError}
    (h : toIntE s = Except.error er) : er = BuildError.intError := by
  unfold toIntE at h
  cases hp : toIntPy s with
  | none => rw [hp] at h; exact (Except.error.inj h).symm
  | some v => rw [hp] at h; exact Except.noConfusion h

theorem joinWith_cons_cons (sep p q : List Char) (ps : List (List Char)) :
    joinWith sep (p :: q :: ps) = p ++ sep ++ joinWith sep (q :: ps) := rfl

theorem joinWith_cons_head (sep : List Char) (x : Char) (p : List Char)
    (ps : List (List Char)) :
    joinWith sep ((x :: p) :: ps) = x :: joinWith sep (p :: ps) := by
  cases ps with
  | nil => rfl
  | cons q qs => simp [joinWith_cons_cons, List.cons_append]

theorem splitSubAux_ne_nil (pat : List Char) (fuel : Nat) (s : List Char) :
    splitSubAux pat fuel s ≠ [] := by
  match fuel, s with
  | fuel, [] =>
    cases fuel <;> simp [splitSubAux]
  | 0, x :: xs => simp [splitSubAux]
  | fuel + 1, x :: xs =>
    by_cases hpre : pat.isPrefixOf (x :: xs)
    · simp [splitSubAux, hpre]
    · simp only [splitSubAux, hpre, Bool.false_eq_true, if_false]
      cases h : splitSubAux pat fuel xs <;> simp

/-- Correctness of the replacement scan: for a nonempty pattern and enough
fuel, the input decomposes into the segments of `splitSubAux` joined by
the pattern, and the replacement output is the same segments joined by the
replacement.  This is the sense in which `str.replace` restores every
token occurrence and changes nothing else. -/
theorem replace_split_spec (pat rep : List Char) (hpat : pat ≠ []) :
    ∀ (fuel : Nat) (s : List Char), s.length ≤ fuel →
      replaceAuxL pat rep fuel s = joinWith rep (splitSubAux pat fuel s) ∧
      joinWith pat (splitSubAux pat fuel s) = s := by
  intro fuel
  induction fuel with
  | zero =>
    intro s hs
    have hnil : s = [] := List.eq_nil_of_length_eq_zero (by omega)
    subst hnil
    exact ⟨rfl, rfl⟩
  | succ fuel ih =>
    intro s hs
    cases s with
    | nil => exact ⟨rfl, rfl⟩
    | cons x xs =>
      by_cases hpre : pat.isPrefixOf (x :: xs)
      · obtain ⟨tail, htail⟩ := List.isPrefixOf_iff_prefix.mp hpre
        have hdrop : List.drop pat.length (x :: xs) = tail := by
          rw [← htail, List.drop_left]
        have hp1 : 1 ≤ pat.length := by
          cases pat with
          | nil => exact absurd rfl hpat
          | cons c cs => simp
        have hlenx : (x :: xs).length = pat.length + tail.length := by
          rw [← htail, List.length_append]
        have hlen : tail.length ≤ fuel := by
          simp only [List.length_cons] at hlenx hs
          omega
        obtain ⟨ih1, ih2⟩ := ih tail hlen
        have hsplit : splitSubAux pat (fuel + 1) (x :: xs) =
            [] :: splitSubAux pat fuel tail := by
          rw [splitSubAux, if_pos hpre, hdrop]
        have hrepl : replaceAuxL pat rep (fuel + 1) (x :: xs) =
            rep ++ replaceAuxL pat rep fuel tail := by
          rw [replaceAuxL, if_pos hpre, hdrop]
        cases hsp : splitSubAux pat fuel tail with
        | nil => exact absurd hsp (splitSubAux_ne_nil pat fuel tail)
        | cons p ps =>
          constructor
          · rw [hrepl, ih1, hsplit, hsp, joinWith_cons_cons]
            simp
          · rw [hsplit, hsp, joinWith_cons_cons, List.nil_append]
            rw [hsp] at ih2
            rw [ih2, htail]
      · have hne := splitSubAux_ne_nil pat fuel xs
        cases hsp : splitSubAux pat fuel xs with
        | nil => exact absurd hsp hne
        | cons p ps =>
          have hsplit : splitSubAux pat (fuel + 1) (x :: xs) = (x :: p) :: ps := by
            rw [splitSubAux, if_neg hpre, hsp]
          have hrepl : replaceAuxL pat rep (fuel + 1) (x :: xs) =
              x :: replaceAuxL pat rep fuel xs := by
            rw [replaceAuxL, if_neg hpre]
          have hlen : xs.length ≤ fuel := by
            simp only [List.length_cons] at hs
            omega
          obtain ⟨ih1, ih2⟩ := ih xs hlen
          rw [hsp] at ih1 ih2
          constructor
          · rw [hrepl, ih1, hsplit, joinWith_cons_head]
          · rw [hsplit, joinWith_cons_head, ih2]

/-- Decomposition view of `replaceS`: the raw string is the segments
joined by the pattern and the result is the same segments joined by the
replacement. -/
theorem replaceS_decomp (s pat rep : String) (hpat : pat.data ≠ []) :
    ∃ segs, s.data = joinWith pat.data segs ∧
      replaceS s pat rep = String.mk (joinWith rep.data segs) := by
  refine ⟨splitSubAux pat.data s.data.length s.data, ?_, ?_⟩
  · exact (replace_split_spec pat.data rep.data hpat s.data.length s.data le_rfl).2.symm
  · unfold replaceS
    rw [if_neg hpat]
    exact congrArg String.mk
      (replace_split_spec pat.data rep.data hpat s.data.length s.data le_rfl).1

/-- C2 counterexample: on the specification's concrete two-row scenario
under perspective `both`, the code exposes context `u1` and label `u2`
(field index 5 of each row), not the claimed `hi` and `hello back` (which
sit at field index 4). -/
theorem C2_counterexample :
    setupRows cfgBoth exampleRowsTwo =
      Except.ok [[⟨"u1", "u2", "joy", "sit", [], false⟩]] ∧
    ("u1" : String) ≠ "hi" ∧ ("u2" : String) ≠ "hello back" :=
  ⟨rfl, by decide, by decide⟩

/-- C2 amended: the scenario yields exactly one episode with a single turn
record whose context is `u1` and label `u2` (the sixth field of each row,
which the code treats as the utterance column), emotion `joy`, situation
`sit`, and political flag false. -/
theorem C2_amended :
    setupRows cfgBoth exampleRowsTwo =
      Except.ok [[⟨"u1", "u2", "joy", "sit", [], false⟩]] := rfl

/-- C5 counterexample: the second row of this file has 3 fields, yet the
build succeeds, because a row that is never the current row of a matching
adjacent pair (here, it starts a new conversation) is never checked. -/
theorem C5_counterexample :
    setupRows cfgBoth exampleRowsShortField = Except.ok [] ∧
    (exampleRowsShortField.getD 1 []).length = 3 :=
  ⟨rfl, rfl⟩

/-- C5 amended: the field-count check applies to the current row of a
matching adjacent pair.  When such a pair is otherwise processable
(parseable consecutive turn indices and at least 6 fields on each side, so
the earlier field accesses succeed), a current-row field count other than
8 or 9 raises the fatal field-count error; and a current row with 8 or 9
fields never raises that error, from any state. -/
theorem C5_amended (i : Nat) (cparts sparts : List String) (a : Int) :
    (toIntPy (cparts.getD 1 "") = some a →
     toIntPy (sparts.getD 1 "") = some (a + 1) →
     6 ≤ cparts.length → 6 ≤ sparts.length →
     sparts.length ≠ 8 → sparts.length ≠ 9 →
     buildTurn i cparts sparts (a + 1) = Except.error (BuildError.fieldCountError i)) ∧
    ((sparts.length = 8 ∨ sparts.length = 9) →
     ∀ (t : Int) (e : Nat),
       buildTurn i cparts sparts t ≠ Except.error (BuildError.fieldCountError e)) := by
  constructor
  · intro hc1 hs1 hcl hsl h8 h9
    have g1 : getF cparts 1 = Except.ok (cparts.getD 1 "") := getF_ok _ _ (by omega)
    have g5 : getF cparts 5 = Except.ok (cparts.getD 5 "") := getF_ok _ _ (by omega)
    have k1 : getF sparts 1 = Except.ok (sparts.getD 1 "") := getF_ok _ _ (by omega)
    have k2 : getF sparts 2 = Except.ok (sparts.getD 2 "") := getF_ok _ _ (by omega)
    have k3 : getF sparts 3 = Except.ok (sparts.getD 3 "") := getF_ok _ _ (by omega)
    have k5 : getF sparts 5 = Except.ok (sparts.getD 5 "") := getF_ok _ _ (by omega)
    unfold buildTurn
    simp only [g1, k1, toIntE_ok hc1, toIntE_ok hs1, exBind_ok, beq_self_eq_true,
      Bool.and_self, if_true, g5, k5, k2, k3]
    rw [if_neg h9, if_neg h8, exBind_err]
  · intro hslen t e hcontra
    unfold buildTurn at hcontra
    cases hg1 : getF cparts 1 with
    | error er =>
      rw [hg1, exBind_err] at hcontra
      have := Except.error.inj hcontra
      rw [getF_error_elim hg1] at this
      exact BuildError.noConfusion this
    | ok c1s =>
    simp only [hg1, exBind_ok] at hcontra
    cases hi1 : toIntE c1s with
    | error er =>
      rw [hi1, exBind_err] at hcontra
      have := Except.error.inj hcontra
      rw [toIntE_error_elim hi1] at this
      exact BuildError.noConfusion this
    | ok c1 =>
    simp only [hi1, exBind_ok] at hcontra
    cases hg2 : getF sparts 1 with
    | error er =>
      rw [hg2, exBind_err] at hcontra
      have := Except.error.inj hcontra
      rw [getF_error_elim hg2] at this
      exact BuildError.noConfusion this
    | ok s1s =>
    simp only [hg2, exBind_ok] at hcontra
    cases hi2 : toIntE s1s with
    | error er =>
      rw [hi2, exBind_err] at hcontra
      have := Except.error.inj hcontra
      rw [toIntE_error_elim hi2] at this
      exact BuildError.noConfusion this
    | ok s1v =>
    simp only [hi2, exBind_ok] at hcontra
    cases hcond : (c1 + 1 == s1v && s1v == t) with
    | false =>
      rw [hcond] at hcontra
      simp only [Bool.false_eq_true, if_false] at hcontra
      exact BuildError.noConfusion (Except.error.inj hcontra)
    | true =>
    rw [hcond] at hcontra
    simp only [if_true] at hcontra
    cases hc5 : getF cparts 5 with
    | error er =>
      rw [hc5, exBind_err] at hcontra
      have := Except.error.inj hcontra
      rw [getF_error_elim hc5] at this
      exact BuildError.noConfusion this
    | ok ctxRaw =>
    simp only [hc5, exBind_ok] at hcontra
    cases hs5 : getF sparts 5 with
    | error er =>
      rw [hs5, exBind_err] at hcontra
      have := Except.error.inj hcontra
      rw [getF_error_elim hs5] at this
      exact BuildError.noConfusion this
    | ok labRaw =>
    simp only [hs5, exBind_ok] at hcontra
    cases hs2 : getF sparts 2 with
    | error er =>
      rw [hs2, exBind_err] at hcontra
      have := Except.error.inj hcontra
      rw [getF_error_elim hs2] at this
      exact BuildError.noConfusion this
    | ok prompt =>
    simp only [hs2, exBind_ok] at hcontra
    cases hs3 : getF sparts 3 with
    | error er =>
      rw [hs3, exBind_err] at hcontra
      have := Except.error.inj hcontra
      rw [getF_error_elim hs3] at this
      exact BuildError.noConfusion this
    | ok sitRaw =>
    simp only [hs3, exBind_ok] at hcontra
    rcases hslen with h8 | h9
    · rw [if_neg (by omega : ¬sparts.length = 9), if_pos h8] at hcontra
      simp only [exPure, exBind_ok] at hcontra
      cases hc7 : getF cparts 7 with
      | error er =>
        rw [hc7, exBind_err] at hcontra
        have := Except.error.inj hcontra
        rw [getF_error_elim hc7] at this
        exact BuildError.noConfusion this
      | ok c7 =>
      simp only [hc7, exBind_ok] at hcontra
      cases hs7 : getF sparts 7 with
      | error er =>
        rw [hs7, exBind_err] at hcontra
        have := Except.error.inj hcontra
        rw [getF_error_elim hs7] at this
        exact BuildError.noConfusion this
      | ok s7 =>
      simp only [hs7, exBind_ok, exPure] at hcontra
      exact Except.noConfusion hcontra
    · rw [if_pos h9] at hcontra
      cases hf8 : getF sparts 8 with
      | error er =>
        rw [hf8, exBind_err] at hcontra
        have := Except.error.inj hcontra
        rw [getF_error_elim hf8] at this
        exact BuildError.noConfusion this
      | ok f8 =>
      simp only [hf8, exBind_ok, exPure] at hcontra
      cases hc7 : getF cparts 7 with
      | error er =>
        rw [hc7, exBind_err] at hcontra
        have := Except.error.inj hcontra
        rw [getF_error_elim hc7] at this
        exact BuildError.noConfusion this
      | ok c7 =>
      simp only [hc7, exBind_ok] at hcontra
      cases hs7 : getF sparts 7 with
      | error er =>
        rw [hs7, exBind_err] at hcontra
        have := Except.error.inj hcontra
        rw [getF_error_elim hs7] at this
        exact BuildError.noConfusion this
      | ok s7 =>
      simp only [hs7, exBind_ok, exPure] at hcontra
      exact Except.noConfusion hcontra

theorem C5_witness :
    buildTurn 1 ["c1", "1", "joy", "sit", "s", "a"] ["c1", "2", "joy", "sit", "s", "b", "e"] 2 =
      Except.error (BuildError.fieldCountError 1) ∧
    buildTurn 1 ["c1", "1", "joy", "sit", "s", "a"]
      ["c1", "2", "joy", "sit", "s", "b", "e", ""] 2 ≠
      Except.error (BuildError.fieldCountError 1) := by
  constructor
  · exact (C5_amended 1 ["c1", "1", "joy", "sit", "s", "a"]
      ["c1", "2", "joy", "sit", "s", "b", "e"] 1).1 rfl rfl (by decide) (by decide)
      (by decide) (by decide)
  · exact (C5_amended 1 ["c1", "1", "joy", "sit", "s", "a"]
      ["c1", "2", "joy", "sit", "s", "b", "e", ""] 1).2 (Or.inl rfl) 2 1

/-- C8 counterexample: a context field containing the literal token
`_pipe_` is exposed unchanged, while the specification's restoration of
both tokens would turn it into a literal pipe, so the claim fails on the
context text. -/
theorem C8_counterexample :
    firstContext (setupRows cfgBoth exampleRowsPipe) = some "a_pipe_b" ∧
    specRestoreBoth "a_pipe_b" = "a|b" ∧
    ("a_pipe_b" : String) ≠ "a|b" :=
  ⟨rfl, rfl, by decide⟩

/-- C8 amended: of the exposed text fields, the context text, label text,
and situation restore only the `_comma_` token, leaving `_pipe_` intact,
while each inline label candidate restores both tokens.  Restoration is
exact and touches nothing else: each raw field is the decomposition
segments joined by the escape token and the exposed field is the same
segments joined by the literal replacement. -/
theorem C8_amended {i : Nat} {cparts sparts : List String} {t : Int}
    {r : TurnRecord} {s1 : Int}
    (h : buildTurn i cparts sparts t = Except.ok (r, s1)) :
    (∃ ctxRaw segs, getF cparts 5 = Except.ok ctxRaw ∧
       ctxRaw.data = joinWith "_comma_".data segs ∧
       r.contextt = String.mk (joinWith ",".data segs)) ∧
    (∃ labRaw segs, getF sparts 5 = Except.ok labRaw ∧
       labRaw.data = joinWith "_comma_".data segs ∧
       r.label = String.mk (joinWith ",".data segs)) ∧
    (∃ sitRaw segs, getF sparts 3 = Except.ok sitRaw ∧
       sitRaw.data = joinWith "_comma_".data segs ∧
       r.sit = String.mk (joinWith ",".data segs)) ∧
    (∀ cand ∈ r.inline_label_candidates, ∃ rawc : String,
       cand = replaceS (replaceS rawc "_comma_" ",") "_pipe_" "|" ∧
       ∃ segs, (replaceS rawc "_comma_" ",").data = joinWith "_pipe_".data segs ∧
         cand = String.mk (joinWith "|".data segs)) := by
  obtain ⟨c1s, c1, s1s, ctxRaw, labRaw, prompt, sitRaw, cands, c7, s7,
    _, _, _, _, _, _, hc5, hs5, _, hs3, hcands, _, _, hr⟩ := buildTurn_ok_elim h
  have hcomma : ("_comma_" : String).data ≠ [] := by decide
  have hpipe : ("_pipe_" : String).data ≠ [] := by decide
  refine ⟨?_, ?_, ?_, ?_⟩
  · obtain ⟨segs, hdec, hrep⟩ := replaceS_decomp ctxRaw "_comma_" "," hcomma
    exact ⟨ctxRaw, segs, hc5, hdec, by rw [hr]; exact hrep⟩
  · obtain ⟨segs, hdec, hrep⟩ := replaceS_decomp labRaw "_comma_" "," hcomma
    exact ⟨labRaw, segs, hs5, hdec, by rw [hr]; exact hrep⟩
  · obtain ⟨segs, hdec, hrep⟩ := replaceS_decomp sitRaw "_comma_" "," hcomma
    exact ⟨sitRaw, segs, hs3, hdec, by rw [hr]; exact hrep⟩
  · intro cand hcand
    rw [hr] at hcand
    simp only at hcand
    rcases hcands with ⟨h9, f8, hf8, hceq⟩ | ⟨h8, hceq⟩
    · rw [hceq] at hcand
      by_cases hf8e : f8 = ""
      · rw [if_neg (by simp [hf8e])] at hcand
        exact absurd hcand (List.not_mem_nil cand)
      · rw [if_pos hf8e] at hcand
        obtain ⟨rawc, hrawc, hmap⟩ := List.mem_map.mp hcand
        refine ⟨rawc, hmap.symm, ?_⟩
        obtain ⟨segs, hdec, hrep⟩ :=
          replaceS_decomp (replaceS rawc "_comma_" ",") "_pipe_" "|" hpipe
        exact ⟨segs, hdec, by rw [← hmap]; exact hrep⟩
    · rw [hceq] at hcand
      exact absurd hcand (List.not_mem_nil cand)

theorem C8_witness :
    (∃ ctxRaw segs,
       getF ["c1", "1", "joy", "sit", "s", "a", "e", ""] 5 = Except.ok ctxRaw ∧
       ctxRaw.data = joinWith "_comma_".data segs ∧
       (⟨"a", "b,c", "joy", "si,t", ["x|y", "z"], false⟩ : TurnRecord).contextt =
         String.mk (joinWith ",".data segs)) ∧
    (∃ labRaw segs,
       getF ["c1", "2", "joy", "si_comma_t", "s", "b_comma_c", "e", "", "x_pipe_y|z"] 5 =
         Except.ok labRaw ∧
       labRaw.data = joinWith "_comma_".data segs ∧
       (⟨"a", "b,c", "joy", "si,t", ["x|y", "z"], false⟩ : TurnRecord).label =
         String.mk (joinWith ",".data segs)) ∧
    (∃ sitRaw segs,
       getF ["c1", "2", "joy", "si_comma_t", "s", "b_comma_c", "e", "", "x_pipe_y|z"] 3 =
         Except.ok sitRaw ∧
       sitRaw.data = joinWith "_comma_".data segs ∧
       (⟨"a", "b,c", "joy", "si,t", ["x|y", "z"], false⟩ : TurnRecord).sit =
         String.mk (joinWith ",".data segs)) ∧
    (∀ cand ∈ (⟨"a", "b,c", "joy", "si,t", ["x|y", "z"], false⟩ :
        TurnRecord).inline_label_candidates, ∃ rawc : String,
       cand = replaceS (replaceS rawc "_comma_" ",") "_pipe_" "|" ∧
       ∃ segs, (replaceS rawc "_comma_" ",").data = joinWith "_pipe_".data segs ∧
         cand = String.mk (joinWith "|".data segs)) :=
  @C8_amended 1 ["c1", "1", "joy", "sit", "s", "a", "e", ""]
    ["c1", "2", "joy", "si_comma_t", "s", "b_comma_c", "e", "", "x_pipe_y|z"]
    2 ⟨"a", "b,c", "joy", "si,t", ["x|y", "z"], false⟩ 2 rfl

/-- C9 counterexample: on a five-row conversation the derived variant's
`num_examples` returns the number of episodes (1), not the sum of turn
counts over the built episodes (2). -/
theorem C9_counterexample :
    (mkExperiencerVariant cfgBoth exampleRowsFive).map variant_num_examples = Except.ok 1 ∧
    (mkExperiencerVariant cfgBoth exampleRowsFive).map
      (fun ts => (ts.data.map List.length).sum) = Except.ok 2 ∧
    (1 : Nat) ≠ 2 :=
  ⟨rfl, rfl, by decide⟩

/-- C9 amended: for the base teacher, `num_examples` returns the sum of
turn counts over all built episodes and `num_episodes` the number of
episodes; the derived responder-perspective variant's overrides instead
both return the number of episodes. -/
theorem C9_amended (cfg : Config) (rows : List (List String)) :
    (∀ ts, mkTeacher cfg rows = Except.ok ts →
      teacher_num_examples ts = (ts.data.map List.length).sum ∧
      teacher_num_episodes ts = ts.data.length) ∧
    (∀ ts, mkExperiencerVariant cfg rows = Except.ok ts →
      variant_num_examples ts = ts.data.length ∧
      variant_num_episodes ts = ts.data.length) := by
  constructor
  · intro ts h
    unfold mkTeacher at h
    cases hs : setupRows cfg rows with
    | error e => rw [hs] at h; exact Except.noConfusion h
    | ok d =>
      rw [hs] at h
      cases Except.ok.inj h
      exact ⟨rfl, rfl⟩
  · intro ts h
    exact ⟨rfl, rfl⟩

theorem select_both_sum (cfg : Config) (hp : cfg.perspective = "both")
    (expBuf resBuf : List TurnRecord)
    (hkeep : cfg.remove_political_convos = true →
      ∀ tr ∈ expBuf ++ resBuf, tr.is_political = false) :
    ((select_dialogues_to_add cfg expBuf resBuf).map List.length).sum =
      expBuf.length + resBuf.length := by
  have hcond : (cfg.remove_political_convos &&
      (expBuf ++ resBuf).any (fun t => t.is_political)) = false := by
    cases hrp : cfg.remove_political_convos with
    | false => rfl
    | true =>
      have hall := hkeep hrp
      have hany : (expBuf ++ resBuf).any (fun t => t.is_political) = false := by
        rw [List.any_eq_false]
        intro tr htr
        simp [hall tr htr]
      rw [hany, Bool.and_false]
  have hb1 : (cfg.perspective != "responder") = true := by rw [hp]; decide
  have hb2 : (cfg.perspective != "experiencer") = true := by rw [hp]; decide
  unfold select_dialogues_to_add
  rw [hcond]
  simp only [Bool.false_eq_true, if_false, hb1, hb2, Bool.and_true]
  by_cases h1 : expBuf = [] <;> by_cases h2 : resBuf = [] <;>
    simp [h1, h2, List.length_pos]

/-- Loop invariant for a single conversation: from any loop state, a
well-formed run of rows sharing one conversation id is consumed without
error, every adjacent pair contributes exactly one turn record to one of
the two buffers, and the conversation's episodes are the selection applied
to the final buffers. -/
theorem setupRowsAux_conv (cfg : Config) (cid : String) :
    ∀ (rest : List (List String)) (prev : List String) (i : Nat) (t : Int)
      (expBuf resBuf : List TurnRecord) (data : List Episode),
      prev.getD 0 "" = cid →
      toIntPy (prev.getD 1 "") = some t →
      8 ≤ prev.length →
      convChainB cid t rest = true →
      ∃ e r, setupRowsAux cfg i prev rest t expBuf resBuf data =
          Except.ok (data ++ select_dialogues_to_add cfg e r) ∧
        e.length + r.length = expBuf.length + resBuf.length + rest.length ∧
        ((∀ x ∈ expBuf ++ resBuf, x.is_political = false) →
         (∀ row ∈ prev :: rest, hasPolitical (row.getD 7 "") = false) →
         ∀ x ∈ e ++ r, x.is_political = false) := by
  intro rest
  induction rest with
  | nil =>
    intro prev i t expBuf resBuf data h0 h1 hlen hchain
    exact ⟨expBuf, resBuf, rfl, by simp, fun hb _ => hb⟩
  | cons cur rest' ih =>
    intro prev i t expBuf resBuf data h0 h1 hlen hchain
    rw [convChainB] at hchain
    simp only [Bool.and_eq_true, Bool.or_eq_true, beq_iff_eq] at hchain
    obtain ⟨⟨⟨hcur0, hcur1⟩, hcurlen⟩, hchain'⟩ := hchain
    have hcl8 : 8 ≤ cur.length := by rcases hcurlen with h | h <;> omega
    obtain ⟨cands, hbt⟩ := buildTurn_eval i prev cur t h1 hcur1 hlen hcurlen
    cases prev with
    | nil => simp at hlen
    | cons p ps =>
      cases cur with
      | nil => simp at hcl8
      | cons q qs =>
        have hp0 : p = cid := by simpa using h0
        have hq0 : q = cid := by simpa using hcur0
        subst hp0
        subst hq0
        unfold setupRowsAux
        simp only [List.head?_cons]
        rw [if_pos trivial]
        simp only [hbt]
        by_cases hpar : (t + 1) % 2 = 0
        · rw [if_pos hpar]
          obtain ⟨e, r, heq, hcount, hpol⟩ := ih (q :: qs) (i + 1) (t + 1)
            (expBuf ++ [⟨replaceS ((q :: ps).getD 5 "") "_comma_" ",",
              replaceS ((q :: qs).getD 5 "") "_comma_" ",", (q :: qs).getD 2 "",
              replaceS ((q :: qs).getD 3 "") "_comma_" ",", cands,
              hasPolitical ((q :: ps).getD 7 "") || hasPolitical ((q :: qs).getD 7 "")⟩])
            resBuf data (by simp) hcur1 hcl8 hchain'
          refine ⟨e, r, heq, ?_, ?_⟩
          · rw [hcount]
            simp only [List.length_append, List.length_cons, List.length_nil]
            omega
          · intro hb hrows
            apply hpol
            · intro x hx
              simp only [List.mem_append, List.mem_singleton] at hx
              rcases hx with (hx | hx) | hx
              · exact hb x (by simp [hx])
              · rw [hx]
                show (hasPolitical ((q :: ps).getD 7 "") ||
                  hasPolitical ((q :: qs).getD 7 "")) = false
                rw [hrows (q :: ps) (by simp), hrows (q :: qs) (by simp)]
                rfl
              · exact hb x (by simp [hx])
            · intro row hrow
              exact hrows row (by simp [List.mem_cons] at hrow ⊢; tauto)
        · rw [if_neg hpar]
          obtain ⟨e, r, heq, hcount, hpol⟩ := ih (q :: qs) (i + 1) (t + 1)
            expBuf
            (resBuf ++ [⟨replaceS ((q :: ps).getD 5 "") "_comma_" ",",
              replaceS ((q :: qs).getD 5 "") "_comma_" ",", (q :: qs).getD 2 "",
              replaceS ((q :: qs).getD 3 "") "_comma_" ",", cands,
              hasPolitical ((q :: ps).getD 7 "") || hasPolitical ((q :: qs).getD 7 "")⟩])
            data (by simp) hcur1 hcl8 hchain'
          refine ⟨e, r, heq, ?_, ?_⟩
          · rw [hcount]
            simp only [List.length_append, List.length_cons, List.length_nil]
            omega
          · intro hb hrows
            apply hpol
            · intro x hx
              simp only [List.mem_append, List.mem_singleton] at hx
              rcases hx with hx | (hx | hx)
              · exact hb x (by simp [hx])
              · exact hb x (by simp [hx])
              · rw [hx]
                show (hasPolitical ((q :: ps).getD 7 "") ||
                  hasPolitical ((q :: qs).getD 7 "")) = false
                rw [hrows (q :: ps) (by simp), hrows (q :: qs) (by simp)]
                rfl
            · intro row hrow
              exact hrows row (by simp [List.mem_cons] at hrow ⊢; tauto)

/-- C1 counterexample: a well-formed three-row conversation under
perspective `both`, with political filtering off, yields turn records
totalling 2, not 3: each of the N - 1 adjacent same-conversation pairs
contributes one record, so the total is N - 1, not N. -/
theorem C1_counterexample :
    totalExamples (setupRows cfgBoth exampleRowsThree) = some 2 ∧
    exampleRowsThree.length = 3 ∧ (2 : Nat) ≠ 3 :=
  ⟨rfl, rfl, by decide⟩

/-- C1 amended: for every well-formed conversation of N rows (matching
conversation ids, consecutive turn indices starting at 1, valid field
counts), when the perspective selects both sides and the conversation is
not dropped by political filtering, the total number of turn records over
its episodes is N - 1. -/
theorem C1_amended (cfg : Config) (cid : String) (first : List String)
    (rest : List (List String))
    (hp : cfg.perspective = "both")
    (h0 : first.getD 0 "" = cid)
    (h1 : toIntPy (first.getD 1 "") = some 1)
    (hlen : 8 ≤ first.length)
    (hchain : convChainB cid 1 rest = true)
    (hkeep : cfg.remove_political_convos = true →
      ∀ row ∈ first :: rest, hasPolitical (row.getD 7 "") = false) :
    ∃ eps, setupRows cfg (first :: rest) = Except.ok eps ∧
      (eps.map List.length).sum = (first :: rest).length - 1 := by
  obtain ⟨e, r, heq, hcount, hpol⟩ :=
    setupRowsAux_conv cfg cid rest first 1 1 [] [] [] h0 h1 hlen hchain
  refine ⟨[] ++ select_dialogues_to_add cfg e r, heq, ?_⟩
  rw [List.nil_append]
  rw [select_both_sum cfg hp e r ?hk]
  case hk =>
    intro hrp tr htr
    exact hpol (by simp) (hkeep hrp) tr htr
  simp only [List.length_nil] at hcount
  simp only [List.length_cons]
  omega

theorem C1_witness :
    ∃ eps, setupRows cfgBoth exampleRowsThree = Except.ok eps ∧
      (eps.map List.length).sum = exampleRowsThree.length - 1 :=
  C1_amended cfgBoth "c1" ["c1", "1", "joy", "sit", "s", "hi", "e", ""]
    [["c1", "2", "joy", "sit", "s", "yo", "e", ""],
     ["c1", "3", "joy", "sit", "s", "ok", "e", ""]]
    rfl rfl rfl (by decide) (by decide) (by decide)

theorem C9_witness :
    mkTeacher cfgBoth exampleRowsFive = Except.ok exampleTeacherFive ∧
    teacher_num_examples exampleTeacherFive =
      (exampleTeacherFive.data.map List.length).sum ∧
    teacher_num_episodes exampleTeacherFive = exampleTeacherFive.data.length :=
  ⟨rfl, ((C9_amended cfgBoth exampleRowsFive).1 exampleTeacherFive rfl).1,
    ((C9_amended cfgBoth exampleRowsFive).1 exampleTeacherFive rfl).2⟩

end EmpatheticDialogues
